import Mathlib

/-!
Shallow embedding of the audio-processing serverless handler
(`src/api/process-audio.js`, the strict revision, and `src/unnamed/part_000`,
the lenient two-call revision).  Strings are modelled as `List Char`; the
external pieces (multer's multipart parsing, the generative-AI client) are
modelled as oracle parameters carrying the outcome of the corresponding
`await`.  All definitions are executable and reduce in the kernel.
-/

/- Characters written via code points so that source literals stay simple. -/
def lbraceChar : Char := Char.ofNat 123

def rbraceChar : Char := Char.ofNat 125

def btChar : Char := Char.ofNat 96

/-- The JS regex class `\s`, restricted to the ASCII whitespace characters
(the inputs in scope are ASCII; full `\s` also matches some Unicode spaces). -/
def isJsWs (c : Char) : Bool :=
  c == ' ' || c == '\t' || c == '\n' || c == '\r' || c == '\x0b' || c == '\x0c'

/-- JSON's whitespace class, as accepted by `JSON.parse` between tokens. -/
def isJsonWs (c : Char) : Bool :=
  c == ' ' || c == '\t' || c == '\n' || c == '\r'

/-- The characters of the first regex alternative `` ```json `` . -/
def fenceTag : List Char := [btChar, btChar, btChar, 'j', 's', 'o', 'n']

/-- Three backticks, the core of the second regex alternative `` \s*``` `` . -/
def fenceTicks : List Char := [btChar, btChar, btChar]

/-- One left-to-right pass of the global replacement
`responseText.replace(/```json\s*|\s*```/g, '')` (line 103 of the strict
revision).  At each position the engine tries the first alternative
`` ```json\s* `` and then the second `` \s*``` ``; on a match the matched span
is dropped and scanning resumes after it, otherwise one character is kept.
`fuel` bounds the recursion; every step consumes at least one character, so
`length + 1` fuel is always enough. -/
def fenceScan (fuel : Nat) (s : List Char) : List Char :=
  match fuel, s with
  | 0, _ => []
  | _ + 1, [] => []
  | f + 1, c :: cs =>
    if (c :: cs).take 7 = fenceTag then
      fenceScan f (((c :: cs).drop 7).dropWhile isJsWs)
    else
      let t := (c :: cs).dropWhile isJsWs
      if t.take 3 = fenceTicks then fenceScan f (t.drop 3)
      else c :: fenceScan f cs

/-- `responseText.replace(/```json\s*|\s*```/g, '')`. -/
def fenceClean (s : List Char) : List Char := fenceScan (s.length + 1) s

/-- JS `String.prototype.trim`, on the same ASCII whitespace class. -/
def jsTrim (s : List Char) : List Char :=
  ((s.dropWhile isJsWs).reverse.dropWhile isJsWs).reverse

/-- Remove the trailing whitespace run of a list (used to describe what the
second regex alternative consumes in front of a fence). -/
def rstripWs (s : List Char) : List Char :=
  (s.reverse.dropWhile isJsWs).reverse

/-- JSON values as produced by `JSON.parse`.  Numbers are kept as their
validated lexemes; `JSON.parse` cannot produce `undefined`, functions or
`NaN`, so this grammar is exhaustive for parsed values. -/
inductive JVal where
  | jnull : JVal
  | jbool : Bool → JVal
  | jnum : List Char → JVal
  | jstr : List Char → JVal
  | jarr : List JVal → JVal
  | jobj : List (List Char × JVal) → JVal

/-- Skip JSON token whitespace. -/
def skipJsonWs (s : List Char) : List Char := s.dropWhile isJsonWs

/-- Decode a single-character escape after a backslash inside a JSON string. -/
def simpleEscape (c : Char) : Option Char :=
  if c = '"' then some '"'
  else if c = '\\' then some '\\'
  else if c = '/' then some '/'
  else if c = 'b' then some '\x08'
  else if c = 'f' then some '\x0c'
  else if c = 'n' then some '\n'
  else if c = 'r' then some '\r'
  else if c = 't' then some '\t'
  else none

/-- Value of a hexadecimal digit. -/
def hexVal (c : Char) : Option Nat :=
  if '0' ≤ c ∧ c ≤ '9' then some (c.toNat - '0'.toNat)
  else if 'a' ≤ c ∧ c ≤ 'f' then some (c.toNat - 'a'.toNat + 10)
  else if 'A' ≤ c ∧ c ≤ 'F' then some (c.toNat - 'A'.toNat + 10)
  else none

/-- Body of a JSON string literal, after the opening quote.  Returns the
decoded characters and the remaining input after the closing quote.
`JSON.parse` rejects unescaped control characters; `\uXXXX` escapes are
decoded as the corresponding code point (surrogate-pair recombination is not
modelled; the inputs in scope contain no `\u` escapes). -/
def parseStringBody : List Char → Option (List Char × List Char)
  | [] => none
  | c :: cs =>
    if c = '"' then some ([], cs)
    else if c = '\\' then
      match cs with
      | 'u' :: h1 :: h2 :: h3 :: h4 :: rest =>
        match hexVal h1, hexVal h2, hexVal h3, hexVal h4 with
        | some a, some b, some d, some e =>
          match parseStringBody rest with
          | some (str, r) => some (Char.ofNat (((a * 16 + b) * 16 + d) * 16 + e) :: str, r)
          | none => none
        | _, _, _, _ => none
      | e :: es =>
        match simpleEscape e with
        | some d =>
          match parseStringBody es with
          | some (str, r) => some (d :: str, r)
          | none => none
        | none => none
      | [] => none
    else if c.toNat < 32 then none
    else
      match parseStringBody cs with
      | some (str, r) => some (c :: str, r)
      | none => none

/-- Split off a (possibly empty) run of decimal digits. -/
def takeDigits (s : List Char) : List Char × List Char :=
  (s.takeWhile Char.isDigit, s.dropWhile Char.isDigit)

/-- Exponent part of a JSON number (may be absent). -/
def parseExpPart (acc : List Char) (s : List Char) : Option (List Char × List Char) :=
  match s with
  | c :: cs =>
    if c = 'e' ∨ c = 'E' then
      let (sgn, s1) : List Char × List Char :=
        match cs with
        | d :: ds => if d = '+' ∨ d = '-' then ([d], ds) else ([], cs)
        | [] => ([], [])
      let (ds, r) := takeDigits s1
      if ds = [] then none else some (acc ++ c :: (sgn ++ ds), r)
    else some (acc, s)
  | [] => some (acc, s)

/-- Fraction and exponent parts of a JSON number. -/
def parseFracPart (acc : List Char) (s : List Char) : Option (List Char × List Char) :=
  match s with
  | c :: cs =>
    if c = '.' then
      let (ds, r) := takeDigits cs
      if ds = [] then none else parseExpPart (acc ++ c :: ds) r
    else parseExpPart acc s
  | [] => some (acc, s)

/-- Lex a JSON number (grammar `-?(0|[1-9][0-9]*)(\.[0-9]+)?([eE][+-]?[0-9]+)?`),
returning the lexeme and the remaining input. -/
def parseNumberLex (s : List Char) : Option (List Char × List Char) :=
  let (sgn, s1) : List Char × List Char :=
    match s with
    | c :: cs => if c = '-' then ([c], cs) else ([], s)
    | [] => ([], [])
  match s1 with
  | c :: cs =>
    if c = '0' then parseFracPart (sgn ++ ['0']) cs
    else if c.isDigit then
      let (ds, r) := takeDigits (c :: cs)
      parseFracPart (sgn ++ ds) r
    else none
  | [] => none

mutual

/-- One JSON value, preceded by optional whitespace (the recursive core of
`JSON.parse`).  Returns the value and the remaining input. -/
def parseValue : Nat → List Char → Option (JVal × List Char)
  | 0, _ => none
  | f + 1, s =>
    match skipJsonWs s with
    | [] => none
    | c :: cs =>
      if c = '"' then
        match parseStringBody cs with
        | some (str, r) => some (JVal.jstr str, r)
        | none => none
      else if c = lbraceChar then
        match skipJsonWs cs with
        | d :: ds =>
          if d = rbraceChar then some (JVal.jobj [], ds)
          else
            match parseMembers f cs with
            | some (ms, r) => some (JVal.jobj ms, r)
            | none => none
        | [] => none
      else if c = '[' then
        match skipJsonWs cs with
        | d :: ds =>
          if d = ']' then some (JVal.jarr [], ds)
          else
            match parseElems f cs with
            | some (vs, r) => some (JVal.jarr vs, r)
            | none => none
        | [] => none
      else if c = 't' then
        if cs.take 3 = ['r', 'u', 'e'] then some (JVal.jbool true, cs.drop 3) else none
      else if c = 'f' then
        if cs.take 4 = ['a', 'l', 's', 'e'] then some (JVal.jbool false, cs.drop 4) else none
      else if c = 'n' then
        if cs.take 3 = ['u', 'l', 'l'] then some (JVal.jnull, cs.drop 3) else none
      else if c = '-' ∨ c.isDigit then
        match parseNumberLex (c :: cs) with
        | some (lex, r) => some (JVal.jnum lex, r)
        | none => none
      else none

/-- A nonempty comma-separated list of array elements followed by `]`. -/
def parseElems : Nat → List Char → Option (List JVal × List Char)
  | 0, _ => none
  | f + 1, s =>
    match parseValue f s with
    | some (v, r) =>
      match skipJsonWs r with
      | c :: cs =>
        if c = ',' then
          match parseElems f cs with
          | some (vs, r2) => some (v :: vs, r2)
          | none => none
        else if c = ']' then some ([v], cs)
        else none
      | [] => none
    | none => none

/-- A nonempty comma-separated list of `"key": value` members followed by
the closing brace. -/
def parseMembers : Nat → List Char → Option (List (List Char × JVal) × List Char)
  | 0, _ => none
  | f + 1, s =>
    match skipJsonWs s with
    | c :: cs =>
      if c = '"' then
        match parseStringBody cs with
        | some (key, r1) =>
          match skipJsonWs r1 with
          | d :: ds =>
            if d = ':' then
              match parseValue f ds with
              | some (v, r2) =>
                match skipJsonWs r2 with
                | e :: es =>
                  if e = ',' then
                    match parseMembers f es with
                    | some (ms, r3) => some ((key, v) :: ms, r3)
                    | none => none
                  else if e = rbraceChar then some ([(key, v)], es)
                  else none
                | [] => none
              | none => none
            else none
          | [] => none
        | none => none
      else none
    | [] => none

end

/-- `JSON.parse`: one value, with only whitespace allowed before and after. -/
def parseJson (s : List Char) : Option JVal :=
  match parseValue (s.length + 1) s with
  | some (v, r) => if skipJsonWs r = [] then some v else none
  | none => none

/-- The digits of a list read as a decimal natural number. -/
def digitsToNat (ds : List Char) : Nat :=
  ds.foldl (fun acc c => acc * 10 + (c.toNat - '0'.toNat)) 0

/-- Mantissa of a JSON number lexeme: all its digits before the exponent
marker, ignoring sign and decimal point. -/
def numLexMantissa (lex : List Char) : Nat :=
  let noSign := lex.dropWhile (fun c => c == '-')
  let mant := noSign.takeWhile (fun c => !(c == 'e' || c == 'E'))
  digitsToNat (mant.filter (fun c => !(c == '.')))

/-- Decimal exponent of a JSON number lexeme: the explicit exponent minus
the number of fraction digits, so the lexeme denotes mantissa times ten to
this power (up to sign). -/
def numLexExponent (lex : List Char) : Int :=
  let noSign := lex.dropWhile (fun c => c == '-')
  let mant := noSign.takeWhile (fun c => !(c == 'e' || c == 'E'))
  let fracLen := (mant.dropWhile (fun c => !(c == '.'))).length - 1
  let expPart := noSign.dropWhile (fun c => !(c == 'e' || c == 'E'))
  let expVal : Int :=
    match expPart with
    | [] => 0
    | _ :: rest =>
      match rest with
      | c :: ds =>
        if c = '-' then -(digitsToNat ds : Int)
        else if c = '+' then (digitsToNat ds : Int)
        else (digitsToNat rest : Int)
      | [] => 0
  expVal - (fracLen : Int)

/-- Whether a JSON number lexeme denotes the double zero.  `JSON.parse`
converts numbers to IEEE-754 doubles with round-to-nearest, ties to even,
so a lexeme is zero exactly when its magnitude is at most `2 ^ (-1075)`
(half the smallest subnormal; the tie itself rounds to the even zero).
For mantissa `m` and decimal exponent `-(k+1)` that is `m * 2^1075 ≤
10^(k+1)`; a zero mantissa is zero outright and a nonnegative exponent
with a nonzero mantissa never is. -/
def numIsZero (lex : List Char) : Bool :=
  let m := numLexMantissa lex
  if m = 0 then true
  else
    match numLexExponent lex with
    | Int.ofNat _ => false
    | Int.negSucc k => decide (m * 2 ^ 1075 ≤ 10 ^ (k + 1))

/-- JS truthiness of a property-access result: `none` is `undefined`;
`null`, `false`, the empty string and numbers whose double value is zero
(including underflowing lexemes) are falsy. -/
def truthy : Option JVal → Bool
  | none => false
  | some JVal.jnull => false
  | some (JVal.jbool b) => b
  | some (JVal.jnum lex) => !(numIsZero lex)
  | some (JVal.jstr s) => !s.isEmpty
  | some (JVal.jarr _) => true
  | some (JVal.jobj _) => true

/-- JS property access `v[k]` for a parsed JSON value: on an object the last
binding of the key wins (as after `JSON.parse` of duplicate keys); on any
non-object non-null value the result is `undefined`.  Access on `null`
throws, which the handler models separately. -/
def getField (v : JVal) (k : List Char) : Option JVal :=
  match v with
  | JVal.jobj fields => fields.foldl (fun acc p => if p.1 = k then some p.2 else acc) none
  | _ => none

/-- JS `x || d` on a property-access result. -/
def jsOr (x : Option JVal) (d : JVal) : JVal :=
  match x with
  | some v => if truthy (some v) then v else d
  | none => d

/-- An HTTP response as written by the handler: a status code and an optional
JSON body (`none` for `res.end()` with no body). -/
structure Response where
  status : Nat
  body : Option JVal

/-- The strict revision's error envelope `res.status(st).json({error, success:false})`. -/
def errBody (msg : List Char) : JVal :=
  JVal.jobj [("error".data, JVal.jstr msg), ("success".data, JVal.jbool false)]

/-- Lines 129-141 of the strict revision: validate the parsed response and
build the success body, substituting placeholder strings for falsy fields.
Property access on `null` throws a `TypeError`, which the surrounding
`catch` turns into a 500 envelope with the error's message (the message text
is a stand-in for the engine's wording; no claim inspects it). -/
def validateAndRespond (parsed : JVal) : Response :=
  match parsed with
  | JVal.jnull => ⟨500, some (errBody "Cannot read properties of null".data)⟩
  | p =>
    let tr := getField p "transcript".data
    let su := getField p "summary".data
    if truthy tr = false ∧ truthy su = false then
      ⟨500, some (errBody "AI response missing required fields".data)⟩
    else
      ⟨200, some (JVal.jobj
        [("transcript".data, jsOr tr (JVal.jstr "No transcript available".data)),
         ("summary".data, jsOr su (JVal.jstr "No summary available".data)),
         ("success".data, JVal.jbool true)])⟩

/-- Line 103 of the strict revision: global fence removal followed by trim. -/
def cleanResponse (responseText : List Char) : List Char :=
  jsTrim (fenceClean responseText)

/-- The first-`\x7b`-to-last-`\x7d` fallback `cleanedResponse.match(/\{[\s\S]*\}/)`:
the leftmost match starts at the first left brace and greedily runs to the
last right brace; it needs at least two characters. -/
def braceSpan (s : List Char) : Option (List Char) :=
  let t := s.dropWhile (fun c => !(c == lbraceChar))
  let u := (t.reverse.dropWhile (fun c => !(c == rbraceChar))).reverse
  if 2 ≤ u.length then some u else none

/-- Lines 105-127 of the strict revision: direct `JSON.parse` of the cleaned
text, then the brace-span fallback, with the two distinct 500 messages. -/
def parseWithFallback (cleaned : List Char) : Except (List Char) JVal :=
  match parseJson cleaned with
  | some v => Except.ok v
  | none =>
    match braceSpan cleaned with
    | none => Except.error "Invalid response format from AI service".data
    | some sub =>
      match parseJson sub with
      | some v => Except.ok v
      | none => Except.error "Failed to parse AI response as JSON".data

/-- Lines 95-141 of the strict revision: the whole response-extraction stage,
from the raw AI text to the HTTP response. -/
def extractResult (responseText : List Char) : Response :=
  if responseText.isEmpty then ⟨500, some (errBody "Empty response from AI service".data)⟩
  else
    match parseWithFallback (cleanResponse responseText) with
    | Except.error msg => ⟨500, some (errBody msg)⟩
    | Except.ok parsed => validateAndRespond parsed

/-- Node's `path.extname` (posix), as used by both revisions: trailing `/`
separators are skipped, the final path segment is taken, and its suffix
from the last dot is the extension — empty when there is no dot, when the
only dot is the leading one of a dotfile, or for the segment `..`. -/
def extname (filename : List Char) : List Char :=
  let base := ((filename.reverse.dropWhile (fun c => c == '/')).takeWhile
    (fun c => !(c == '/'))).reverse
  if base = "..".data then []
  else
    let afterDot := base.reverse.takeWhile (fun c => !(c == '.'))
    if afterDot.length + 1 < base.length then base.drop (base.length - afterDot.length - 1)
    else if afterDot.length + 1 = base.length then []
    else []

/-- The fixed extension table shared by both revisions (lines 22-29). -/
def mimeTable : List (List Char × List Char) :=
  [(".mp3".data, "audio/mpeg".data), (".wav".data, "audio/wav".data),
   (".m4a".data, "audio/mp4".data), (".aac".data, "audio/aac".data),
   (".ogg".data, "audio/ogg".data), (".flac".data, "audio/flac".data)]

/-- `getMimeType` of the strict revision: `mimeTypes[ext] || null`. -/
def getMimeType (filename : List Char) : Option (List Char) :=
  mimeTable.lookup ((extname filename).map Char.toLower)

/-- `getMimeType` of the lenient revision: `mimeTypes[ext] || 'audio/mpeg'`. -/
def getMimeTypeDefault (filename : List Char) : List Char :=
  (mimeTable.lookup ((extname filename).map Char.toLower)).getD "audio/mpeg".data

/-- The uploaded file as multer presents it (`req.file`). -/
structure AudioFile where
  originalname : List Char
  buffer : List Char

/-- A handler run's observable outcome: the single response written and how
many times `model.generateContent` was invoked. -/
structure HandlerOutcome where
  response : Response
  aiCalls : Nat

/-- JS `error.message || 'Internal server error'` from the strict catch. -/
def messageOrDefault (e : List Char) : List Char :=
  if e.isEmpty then "Internal server error".data else e

/-- The strict revision's handler (`src/api/process-audio.js`).  External
effects are oracle parameters: `multerOutcome` is the settled promise of the
upload middleware (`ok none` when no `audio` field was sent), `apiKey` is
`process.env.GEMINI_API_KEY`, and `aiOutcome` the settled promise of the one
`generateContent` call.  Every `await` is inside the `try`, so a rejection
becomes the catch's 500 envelope; the function is total: exactly one
response is produced. -/
def processAudioHandler (method : List Char)
    (multerOutcome : Except (List Char) (Option AudioFile))
    (apiKey : Option (List Char))
    (aiOutcome : Except (List Char) (List Char)) : HandlerOutcome :=
  if method = "OPTIONS".data then ⟨⟨200, none⟩, 0⟩
  else if method ≠ "POST".data then
    ⟨⟨405, some (errBody "Method not allowed. Only POST requests are accepted.".data)⟩, 0⟩
  else
    match multerOutcome with
    | Except.error e => ⟨⟨500, some (errBody (messageOrDefault e))⟩, 0⟩
    | Except.ok none => ⟨⟨400, some (errBody "No audio file provided".data)⟩, 0⟩
    | Except.ok (some f) =>
      match getMimeType f.originalname with
      | none =>
        ⟨⟨400, some (errBody ("Unsupported file type: ".data ++ extname f.originalname))⟩, 0⟩
      | some _mime =>
        if apiKey = none ∨ apiKey = some [] then
          ⟨⟨500, some (errBody "API key not configured".data)⟩, 0⟩
        else
          match aiOutcome with
          | Except.error e => ⟨⟨500, some (errBody (messageOrDefault e))⟩, 1⟩
          | Except.ok text => ⟨extractResult text, 1⟩

/-- The lenient revision's handler (`src/unnamed/part_000`).  The multipart
middleware is awaited at line 44, before the `try` block, so its rejection
escapes the handler: the result type is `Except`, with `error` meaning an
unhandled rejection and no response written.  There is no API-key check:
`apiKey` is passed to the client constructor unexamined, and the two
`generateContent` calls (transcript, then summary) are made regardless.
Error bodies in this revision carry only `error`, no `success` flag. -/
def part000Handler (method : List Char)
    (multerOutcome : Except (List Char) (Option AudioFile))
    (apiKey : Option (List Char))
    (ai1 ai2 : Except (List Char) (List Char)) : Except (List Char) HandlerOutcome :=
  if method = "OPTIONS".data then Except.ok ⟨⟨200, none⟩, 0⟩
  else if method ≠ "POST".data then
    Except.ok ⟨⟨405, some (JVal.jobj [("error".data, JVal.jstr "Method not allowed".data)])⟩, 0⟩
  else
    match multerOutcome with
    | Except.error e => Except.error e
    | Except.ok fileOpt =>
      match fileOpt with
      | none =>
        Except.ok ⟨⟨400, some (JVal.jobj [("error".data, JVal.jstr "No audio file provided".data)])⟩, 0⟩
      | some f =>
        let _key := apiKey
        let _mime := getMimeTypeDefault f.originalname
        match ai1 with
        | Except.error e =>
          Except.ok ⟨⟨500, some (JVal.jobj [("error".data, JVal.jstr e)])⟩, 1⟩
        | Except.ok transcript =>
          match ai2 with
          | Except.error e =>
            Except.ok ⟨⟨500, some (JVal.jobj [("error".data, JVal.jstr e)])⟩, 2⟩
          | Except.ok summary =>
            Except.ok ⟨⟨200, some (JVal.jobj
              [("transcript".data, JVal.jstr transcript),
               ("summary".data, JVal.jstr summary),
               ("success".data, JVal.jbool true)])⟩, 2⟩

/-- Whether a parsed value is an object. -/
def isObjJ : JVal → Bool
  | JVal.jobj _ => true
  | _ => false

/-- Whether a parsed value is a string. -/
def isStringJ : JVal → Bool
  | JVal.jstr _ => true
  | _ => false

/-- Read a field of a response's JSON body (`none` when there is no body or
the body has no such field). -/
def bodyField (r : Response) (k : List Char) : Option JVal :=
  match r.body with
  | some b => getField b k
  | none => none

/-- All contiguous substrings of a list (with repetitions; used to state
that a text has no brace-delimited span that parses as JSON). -/
def subSpans (s : List Char) : List (List Char) :=
  (List.range (s.length + 1)).flatMap
    (fun i => (List.range (s.length + 1)).map (fun j => (s.drop i).take (j - i)))

/-- Whether some contiguous substring of `s` starts with a left brace, ends
with a right brace, and parses as JSON. -/
def hasParsingBraceSpan (s : List Char) : Bool :=
  (subSpans s).any
    (fun t => t.head? == some lbraceChar && t.getLast? == some rbraceChar
      && (parseJson t).isSome)

/-- Claim C1: for the AI text consisting of prose followed by a
```json-fenced block holding transcript "hi" and summary "bye", the
extraction step (fence cleaning and trim, direct parse, greedy
first-brace-to-last-brace fallback) yields exactly that object, and the
handler's extraction stage answers 200 with those two values. -/
theorem c1_fenced_extraction :
    parseWithFallback (cleanResponse
        "Here is the result:\n```json\n\x7b\"transcript\":\"hi\",\"summary\":\"bye\"\x7d\n```".data) =
      Except.ok (JVal.jobj
        [("transcript".data, JVal.jstr "hi".data), ("summary".data, JVal.jstr "bye".data)]) ∧
    extractResult
        "Here is the result:\n```json\n\x7b\"transcript\":\"hi\",\"summary\":\"bye\"\x7d\n```".data =
      ⟨200, some (JVal.jobj
        [("transcript".data, JVal.jstr "hi".data),
         ("summary".data, JVal.jstr "bye".data),
         ("success".data, JVal.jbool true)])⟩ :=
  ⟨rfl, rfl⟩

/-- Claim C4 (code bug): the strict revision converts a multipart-middleware
rejection into its 500 JSON envelope, but the lenient revision awaits the
middleware outside the try/catch, so the rejection escapes the handler and
no response at all is written. -/
theorem c4_uncaught_multer_rejection :
    (∀ (e : List Char) (k : Option (List Char)) (ai : Except (List Char) (List Char)),
      processAudioHandler "POST".data (Except.error e) k ai =
        ⟨⟨500, some (errBody (messageOrDefault e))⟩, 0⟩) ∧
    (∀ (e : List Char) (k : Option (List Char)) (a1 a2 : Except (List Char) (List Char)),
      part000Handler "POST".data (Except.error e) k a1 a2 = Except.error e) := by
  constructor <;> intros <;> rfl


/-- Claim C5 (code bug): with the credential absent, the strict revision
answers 500 "API key not configured" without consulting the AI oracle, but
the lenient revision has no credential check at all: it invokes the provider
twice and answers 200 from the oracle's outputs. -/
theorem c5_missing_credential :
    (∀ ai : Except (List Char) (List Char),
      processAudioHandler "POST".data (Except.ok (some ⟨"a.mp3".data, []⟩)) none ai =
        ⟨⟨500, some (errBody "API key not configured".data)⟩, 0⟩) ∧
    (∀ t s : List Char,
      part000Handler "POST".data (Except.ok (some ⟨"a.mp3".data, []⟩)) none
          (Except.ok t) (Except.ok s) =
        Except.ok ⟨⟨200, some (JVal.jobj
          [("transcript".data, JVal.jstr t),
           ("summary".data, JVal.jstr s),
           ("success".data, JVal.jbool true)])⟩, 2⟩) := by
  constructor <;> intros <;> rfl


/-- Claim C7 counterexample: a GET to the lenient revision yields 405 with
body holding only the error string; the body has no success field at all,
so the claimed `success:false` member is absent. -/
theorem c7_counterexample :
    part000Handler "GET".data (Except.ok none) none (Except.ok []) (Except.ok []) =
      Except.ok ⟨⟨405, some (JVal.jobj
        [("error".data, JVal.jstr "Method not allowed".data)])⟩, 0⟩ ∧
    getField (JVal.jobj [("error".data, JVal.jstr "Method not allowed".data)])
        "success".data = none :=
  ⟨rfl, rfl⟩

/-- Claim C7 as amended: a request whose method is neither POST nor OPTIONS
always gets status 405 with a JSON body carrying an error string; the
strict revision's body additionally carries success:false, while the
lenient revision's body carries only the error string. -/
theorem c7_method_not_allowed (method : List Char)
    (h1 : method ≠ "POST".data) (h2 : method ≠ "OPTIONS".data) :
    (∀ (mo : Except (List Char) (Option AudioFile)) (k : Option (List Char))
        (ai : Except (List Char) (List Char)),
      processAudioHandler method mo k ai =
        ⟨⟨405, some (errBody "Method not allowed. Only POST requests are accepted.".data)⟩, 0⟩) ∧
    (∀ (mo : Except (List Char) (Option AudioFile)) (k : Option (List Char))
        (a1 a2 : Except (List Char) (List Char)),
      part000Handler method mo k a1 a2 =
        Except.ok ⟨⟨405, some (JVal.jobj
          [("error".data, JVal.jstr "Method not allowed".data)])⟩, 0⟩) := by
  refine ⟨fun mo k ai => ?_, fun mo k a1 a2 => ?_⟩
  · unfold processAudioHandler
    rw [if_neg h2, if_pos h1]
  · unfold part000Handler
    rw [if_neg h2, if_pos h1]

/-- Claim C7 witness: both halves at the concrete method GET. -/
theorem c7_witness :
    processAudioHandler "GET".data (Except.ok none) none (Except.ok []) =
      ⟨⟨405, some (errBody "Method not allowed. Only POST requests are accepted.".data)⟩, 0⟩ ∧
    part000Handler "GET".data (Except.ok none) none (Except.ok []) (Except.ok []) =
      Except.ok ⟨⟨405, some (JVal.jobj
        [("error".data, JVal.jstr "Method not allowed".data)])⟩, 0⟩ :=
  ⟨(c7_method_not_allowed "GET".data (by decide) (by decide)).1 (Except.ok none) none (Except.ok []),
   (c7_method_not_allowed "GET".data (by decide) (by decide)).2 (Except.ok none) none
     (Except.ok []) (Except.ok [])⟩

/-- Reduction of the validation stage on an object: the falsiness test on
both fields, then the 500 error or the 200 body with `||`-substitution. -/
theorem validate_obj (fields : List (List Char × JVal)) :
    validateAndRespond (JVal.jobj fields) =
      (if truthy (getField (JVal.jobj fields) "transcript".data) = false ∧
          truthy (getField (JVal.jobj fields) "summary".data) = false then
        ⟨500, some (errBody "AI response missing required fields".data)⟩
      else
        ⟨200, some (JVal.jobj
          [("transcript".data, jsOr (getField (JVal.jobj fields) "transcript".data)
              (JVal.jstr "No transcript available".data)),
           ("summary".data, jsOr (getField (JVal.jobj fields) "summary".data)
              (JVal.jstr "No summary available".data)),
           ("success".data, JVal.jbool true)])⟩) := rfl

/-- Claim C3 counterexample: with transcript present but the empty string
and summary absent, exactly one field is absent, yet the handler answers
500 "missing required fields" instead of the claimed 200 substitution. -/
theorem c3_counterexample :
    getField (JVal.jobj [("transcript".data, JVal.jstr [])]) "transcript".data =
      some (JVal.jstr []) ∧
    getField (JVal.jobj [("transcript".data, JVal.jstr [])]) "summary".data = none ∧
    validateAndRespond (JVal.jobj [("transcript".data, JVal.jstr [])]) =
      ⟨500, some (errBody "AI response missing required fields".data)⟩ ∧
    (validateAndRespond (JVal.jobj [("transcript".data, JVal.jstr [])])).status ≠ 200 :=
  ⟨rfl, rfl, rfl, by decide⟩

/-- Claim C3 as amended: after a successful parse into an object, if both
transcript and summary are absent the handler fails with the 500 "missing
required fields" error; if exactly one is absent and the present one is
truthy, the absent one is replaced by its placeholder string and the
response is 200 with success true. -/
theorem c3_missing_field_defaults (fields : List (List Char × JVal)) :
    (getField (JVal.jobj fields) "transcript".data = none →
      getField (JVal.jobj fields) "summary".data = none →
      validateAndRespond (JVal.jobj fields) =
        ⟨500, some (errBody "AI response missing required fields".data)⟩) ∧
    (∀ v : JVal, getField (JVal.jobj fields) "transcript".data = some v →
      truthy (some v) = true →
      getField (JVal.jobj fields) "summary".data = none →
      validateAndRespond (JVal.jobj fields) =
        ⟨200, some (JVal.jobj
          [("transcript".data, v),
           ("summary".data, JVal.jstr "No summary available".data),
           ("success".data, JVal.jbool true)])⟩) ∧
    (∀ v : JVal, getField (JVal.jobj fields) "summary".data = some v →
      truthy (some v) = true →
      getField (JVal.jobj fields) "transcript".data = none →
      validateAndRespond (JVal.jobj fields) =
        ⟨200, some (JVal.jobj
          [("transcript".data, JVal.jstr "No transcript available".data),
           ("summary".data, v),
           ("success".data, JVal.jbool true)])⟩) := by
  refine ⟨fun h1 h2 => ?_, fun v hv htv h2 => ?_, fun v hv htv h1 => ?_⟩
  · rw [validate_obj, h1, h2, if_pos ⟨rfl, rfl⟩]
  · rw [validate_obj, hv, h2, if_neg (by simp [htv])]
    simp [jsOr, htv]
  · rw [validate_obj, hv, h1, if_neg (by simp [htv])]
    simp [jsOr, htv]

/-- Claim C3 witness: the spec's own example, transcript "hi" with summary
absent, gets the summary placeholder in a 200 response. -/
theorem c3_witness :
    validateAndRespond (JVal.jobj [("transcript".data, JVal.jstr "hi".data)]) =
      ⟨200, some (JVal.jobj
        [("transcript".data, JVal.jstr "hi".data),
         ("summary".data, JVal.jstr "No summary available".data),
         ("success".data, JVal.jbool true)])⟩ :=
  (c3_missing_field_defaults [("transcript".data, JVal.jstr "hi".data)]).2.1
    (JVal.jstr "hi".data) rfl rfl rfl

/-- Claim C8: the required-fields check tests JS falsiness, not key
presence: when both fields are present but falsy the handler answers the
500 "missing required fields" error, and when exactly one present field is
falsy while the other is truthy, the falsy one is replaced by its
placeholder in the 200 response. -/
theorem c8_falsiness_not_presence (fields : List (List Char × JVal)) :
    (∀ t s : JVal, getField (JVal.jobj fields) "transcript".data = some t →
      getField (JVal.jobj fields) "summary".data = some s →
      truthy (some t) = false → truthy (some s) = false →
      validateAndRespond (JVal.jobj fields) =
        ⟨500, some (errBody "AI response missing required fields".data)⟩) ∧
    (∀ t s : JVal, getField (JVal.jobj fields) "transcript".data = some t →
      getField (JVal.jobj fields) "summary".data = some s →
      truthy (some t) = false → truthy (some s) = true →
      validateAndRespond (JVal.jobj fields) =
        ⟨200, some (JVal.jobj
          [("transcript".data, JVal.jstr "No transcript available".data),
           ("summary".data, s),
           ("success".data, JVal.jbool true)])⟩) ∧
    (∀ t s : JVal, getField (JVal.jobj fields) "transcript".data = some t →
      getField (JVal.jobj fields) "summary".data = some s →
      truthy (some t) = true → truthy (some s) = false →
      validateAndRespond (JVal.jobj fields) =
        ⟨200, some (JVal.jobj
          [("transcript".data, t),
           ("summary".data, JVal.jstr "No summary available".data),
           ("success".data, JVal.jbool true)])⟩) := by
  refine ⟨fun t s ht hs htt hts => ?_, fun t s ht hs htt hts => ?_,
    fun t s ht hs htt hts => ?_⟩
  · rw [validate_obj, ht, hs, if_pos ⟨htt, hts⟩]
  · rw [validate_obj, ht, hs, if_neg (by simp [hts])]
    simp [jsOr, htt, hts]
  · rw [validate_obj, ht, hs, if_neg (by simp [htt])]
    simp [jsOr, htt, hts]

/-- Claim C8 witness: both fields empty strings give the 500 error; an
empty transcript next to a non-empty summary gets the placeholder. -/
theorem c8_witness :
    validateAndRespond (JVal.jobj
        [("transcript".data, JVal.jstr []), ("summary".data, JVal.jstr [])]) =
      ⟨500, some (errBody "AI response missing required fields".data)⟩ ∧
    validateAndRespond (JVal.jobj
        [("transcript".data, JVal.jstr []), ("summary".data, JVal.jstr "ok".data)]) =
      ⟨200, some (JVal.jobj
        [("transcript".data, JVal.jstr "No transcript available".data),
         ("summary".data, JVal.jstr "ok".data),
         ("success".data, JVal.jbool true)])⟩ :=
  ⟨(c8_falsiness_not_presence _).1 (JVal.jstr []) (JVal.jstr []) rfl rfl rfl rfl,
   (c8_falsiness_not_presence _).2.1 (JVal.jstr []) (JVal.jstr "ok".data) rfl rfl rfl rfl⟩

/-- Claim C10: the 200 path performs no type validation: a truthy
non-string value bound to transcript (or summary) is returned unchanged in
the 200 body with success true. -/
theorem c10_no_type_validation (fields : List (List Char × JVal)) :
    (∀ v : JVal, getField (JVal.jobj fields) "transcript".data = some v →
      truthy (some v) = true → isStringJ v = false →
      (validateAndRespond (JVal.jobj fields)).status = 200 ∧
      bodyField (validateAndRespond (JVal.jobj fields)) "transcript".data = some v ∧
      bodyField (validateAndRespond (JVal.jobj fields)) "success".data =
        some (JVal.jbool true)) ∧
    (∀ v : JVal, getField (JVal.jobj fields) "summary".data = some v →
      truthy (some v) = true → isStringJ v = false →
      (validateAndRespond (JVal.jobj fields)).status = 200 ∧
      bodyField (validateAndRespond (JVal.jobj fields)) "summary".data = some v ∧
      bodyField (validateAndRespond (JVal.jobj fields)) "success".data =
        some (JVal.jbool true)) := by
  refine ⟨fun v hv htv _hs => ?_, fun v hv htv _hs => ?_⟩
  · rw [validate_obj, hv, if_neg (by simp [htv])]
    refine ⟨rfl, ?_, ?_⟩ <;> simp +decide [bodyField, getField, jsOr, htv]
  · rw [validate_obj, hv, if_neg (by simp [htv])]
    refine ⟨rfl, ?_, ?_⟩ <;> simp +decide [bodyField, getField, jsOr, htv]

/-- Claim C10 witness: a number as transcript and an array as summary are
passed through unchanged. -/
theorem c10_witness :
    (validateAndRespond (JVal.jobj
        [("transcript".data, JVal.jnum ['4', '2']), ("summary".data, JVal.jarr [])])).status =
      200 ∧
    bodyField (validateAndRespond (JVal.jobj
        [("transcript".data, JVal.jnum ['4', '2']), ("summary".data, JVal.jarr [])]))
      "transcript".data = some (JVal.jnum ['4', '2']) ∧
    bodyField (validateAndRespond (JVal.jobj
        [("transcript".data, JVal.jnum ['4', '2']), ("summary".data, JVal.jarr [])]))
      "success".data = some (JVal.jbool true) :=
  (c10_no_type_validation
    [("transcript".data, JVal.jnum ['4', '2']), ("summary".data, JVal.jarr [])]).1
    (JVal.jnum ['4', '2']) rfl rfl rfl

/-- A `lookup` over an association list misses every key not in the list. -/
theorem lookup_none_of_not_mem {β : Type} (k : List Char) :
    ∀ tbl : List (List Char × β), k ∉ tbl.map Prod.fst → tbl.lookup k = none := by
  intro tbl
  induction tbl with
  | nil => intro _; rfl
  | cons p ps ih =>
    intro h
    obtain ⟨a, b⟩ := p
    have h1 : k ≠ a := by
      intro he
      apply h
      rw [List.map_cons]
      exact he ▸ List.mem_cons_self _ _
    have h2 : k ∉ ps.map Prod.fst := by
      intro hm
      apply h
      rw [List.map_cons]
      exact List.mem_cons_of_mem _ hm
    simp only [List.lookup]
    rw [beq_eq_false_iff_ne.mpr h1]
    exact ih h2

/-- Reduction of the strict handler on a POST with an uploaded file: the
MIME check, then the credential check, then the AI call. -/
theorem handler_post_file (f buf : List Char) (k : Option (List Char))
    (ai : Except (List Char) (List Char)) :
    processAudioHandler "POST".data (Except.ok (some ⟨f, buf⟩)) k ai =
      (match getMimeType f with
        | none => ⟨⟨400, some (errBody ("Unsupported file type: ".data ++ extname f))⟩, 0⟩
        | some _ =>
          if k = none ∨ k = some [] then
            ⟨⟨500, some (errBody "API key not configured".data)⟩, 0⟩
          else
            match ai with
            | Except.error e => ⟨⟨500, some (errBody (messageOrDefault e))⟩, 1⟩
            | Except.ok text => ⟨extractResult text, 1⟩) := rfl

/-- Claim C6: for a filename whose lowercased extension is outside the
fixed table, the strict revision's resolver yields null and its handler
rejects the upload with a 400, while the lenient revision's resolver
defaults to audio/mpeg: each revision follows exactly one of the two
documented policies. -/
theorem c6_unknown_extension_policies (f : List Char)
    (h : (extname f).map Char.toLower ∉
      [".mp3".data, ".wav".data, ".m4a".data, ".aac".data, ".ogg".data, ".flac".data]) :
    getMimeType f = none ∧ getMimeTypeDefault f = "audio/mpeg".data ∧
    ∀ (buf : List Char) (k : Option (List Char)) (ai : Except (List Char) (List Char)),
      processAudioHandler "POST".data (Except.ok (some ⟨f, buf⟩)) k ai =
        ⟨⟨400, some (errBody ("Unsupported file type: ".data ++ extname f))⟩, 0⟩ := by
  have hlk : mimeTable.lookup ((extname f).map Char.toLower) = none :=
    lookup_none_of_not_mem _ mimeTable h
  have hmt : getMimeType f = none := hlk
  refine ⟨hmt, ?_, ?_⟩
  · show (mimeTable.lookup ((extname f).map Char.toLower)).getD "audio/mpeg".data = _
    rw [hlk]
    rfl
  · intro buf k ai
    rw [handler_post_file, hmt]

/-- Skipping whitespace keeps a subset of the characters. -/
theorem skipJsonWs_subset (t : List Char) : skipJsonWs t ⊆ t :=
  (List.dropWhile_sublist _).subset

/-- The parser can only produce an object when the input has a left brace:
every non-object branch of the top-level dispatch is headed by another
character. -/
theorem parseValue_not_obj (fuel : Nat) (t : List Char) (ht : lbraceChar ∉ t)
    (w : JVal) (r : List Char) (h : parseValue fuel t = some (w, r)) :
    isObjJ w = false := by
  cases fuel with
  | zero => simp [parseValue] at h
  | succ f =>
    rw [parseValue] at h
    cases hsk : skipJsonWs t with
    | nil => rw [hsk] at h; simp at h
    | cons c cs =>
      rw [hsk] at h
      simp only [] at h
      have hc : c ∈ t := skipJsonWs_subset t (by rw [hsk]; exact List.mem_cons_self c cs)
      by_cases h1 : c = '"'
      · rw [if_pos h1] at h
        cases hps : parseStringBody cs with
        | none => rw [hps] at h; simp at h
        | some p =>
          obtain ⟨str, rr⟩ := p
          rw [hps] at h
          injection h with h'
          injection h' with hw hr
          subst hw
          rfl
      · by_cases h2 : c = lbraceChar
        · exact absurd (h2 ▸ hc) ht
        · by_cases h3 : c = '['
          · rw [if_neg h1, if_neg h2, if_pos h3] at h
            cases hsk2 : skipJsonWs cs with
            | nil => rw [hsk2] at h; simp at h
            | cons d ds =>
              rw [hsk2] at h
              simp only [] at h
              by_cases h4 : d = ']'
              · rw [if_pos h4] at h
                injection h with h'
                injection h' with hw hr
                subst hw
                rfl
              · rw [if_neg h4] at h
                cases hpe : parseElems f cs with
                | none => rw [hpe] at h; simp at h
                | some p =>
                  obtain ⟨vs, rr⟩ := p
                  rw [hpe] at h
                  injection h with h'
                  injection h' with hw hr
                  subst hw
                  rfl
          · by_cases h4 : c = 't'
            · rw [if_neg h1, if_neg h2, if_neg h3, if_pos h4] at h
              by_cases h5 : cs.take 3 = ['r', 'u', 'e']
              · rw [if_pos h5] at h
                injection h with h'
                injection h' with hw hr
                subst hw
                rfl
              · rw [if_neg h5] at h; simp at h
            · by_cases h5 : c = 'f'
              · rw [if_neg h1, if_neg h2, if_neg h3, if_neg h4, if_pos h5] at h
                by_cases h6 : cs.take 4 = ['a', 'l', 's', 'e']
                · rw [if_pos h6] at h
                  injection h with h'
                  injection h' with hw hr
                  subst hw
                  rfl
                · rw [if_neg h6] at h; simp at h
              · by_cases h6 : c = 'n'
                · rw [if_neg h1, if_neg h2, if_neg h3, if_neg h4, if_neg h5, if_pos h6] at h
                  by_cases h7 : cs.take 3 = ['u', 'l', 'l']
                  · rw [if_pos h7] at h
                    injection h with h'
                    injection h' with hw hr
                    subst hw
                    rfl
                  · rw [if_neg h7] at h; simp at h
                · by_cases h7 : c = '-' ∨ c.isDigit
                  · rw [if_neg h1, if_neg h2, if_neg h3, if_neg h4, if_neg h5, if_neg h6,
                      if_pos h7] at h
                    cases hpn : parseNumberLex (c :: cs) with
                    | none => rw [hpn] at h; simp at h
                    | some p =>
                      obtain ⟨lex, rr⟩ := p
                      rw [hpn] at h
                      injection h with h'
                      injection h' with hw hr
                      subst hw
                      rfl
                  · rw [if_neg h1, if_neg h2, if_neg h3, if_neg h4, if_neg h5, if_neg h6,
                      if_neg h7] at h
                    simp at h

/-- `JSON.parse` on a text without a left brace never yields an object. -/
theorem parseJson_not_obj (t : List Char) (ht : lbraceChar ∉ t) (w : JVal)
    (h : parseJson t = some w) : isObjJ w = false := by
  unfold parseJson at h
  cases hpv : parseValue (t.length + 1) t with
  | none => rw [hpv] at h; simp at h
  | some p =>
    obtain ⟨v, r⟩ := p
    rw [hpv] at h
    simp only [] at h
    by_cases hr : skipJsonWs r = []
    · rw [if_pos hr] at h
      injection h with hw
      subst hw
      exact parseValue_not_obj _ t ht v r hpv
    · rw [if_neg hr] at h
      simp at h

/-- Without a left brace the brace-span fallback finds nothing. -/
theorem braceSpan_none (t : List Char) (ht : lbraceChar ∉ t) : braceSpan t = none := by
  have hdw : t.dropWhile (fun c => !(c == lbraceChar)) = [] := by
    induction t with
    | nil => rfl
    | cons c cs ih =>
      have hcne : c ≠ lbraceChar := fun he => ht (he ▸ List.mem_cons_self c cs)
      have : (!(c == lbraceChar)) = true := by
        rw [beq_eq_false_iff_ne.mpr hcne]
        rfl
      rw [List.dropWhile_cons, if_pos this]
      exact ih (fun hm => ht (List.mem_cons_of_mem c hm))
  unfold braceSpan
  rw [hdw]
  rfl

/-- Without a left brace in the cleaned text, the parse-with-fallback stage
can only produce a non-object value or fail. -/
theorem parseWithFallback_not_obj (t : List Char) (ht : lbraceChar ∉ t) (v : JVal)
    (h : parseWithFallback t = Except.ok v) : isObjJ v = false := by
  unfold parseWithFallback at h
  cases hp : parseJson t with
  | some u =>
    rw [hp] at h
    injection h with hu
    subst hu
    exact parseJson_not_obj t ht u hp
  | none =>
    rw [hp, braceSpan_none t ht] at h
    simp at h

/-- Validation of any non-object parsed value ends in a 500 error envelope:
`null` throws and is caught, and every other non-object has neither field. -/
theorem validate_nonobj (v : JVal) (hv : isObjJ v = false) :
    ∃ m, validateAndRespond v = ⟨500, some (errBody m)⟩ := by
  cases v with
  | jnull => exact ⟨_, rfl⟩
  | jbool b => exact ⟨_, rfl⟩
  | jnum lex => exact ⟨_, rfl⟩
  | jstr s => exact ⟨_, rfl⟩
  | jarr vs => exact ⟨_, rfl⟩
  | jobj fs => simp [isObjJ] at hv

/-- Characters surviving the fence scan all come from the input. -/
theorem mem_fenceScan (fuel : Nat) : ∀ (s : List Char) (c : Char),
    c ∈ fenceScan fuel s → c ∈ s := by
  induction fuel with
  | zero => intro s c h; simp [fenceScan] at h
  | succ f ih =>
    intro s c h
    match s with
    | [] => simp [fenceScan] at h
    | d :: ds =>
      rw [fenceScan] at h
      by_cases h1 : (d :: ds).take 7 = fenceTag
      · rw [if_pos h1] at h
        exact (List.drop_sublist 7 (d :: ds)).subset ((List.dropWhile_sublist _).subset (ih _ _ h))
      · rw [if_neg h1] at h
        simp only [] at h
        by_cases h2 : ((d :: ds).dropWhile isJsWs).take 3 = fenceTicks
        · rw [if_pos h2] at h
          exact (List.dropWhile_sublist _).subset
            ((List.drop_sublist 3 _).subset (ih _ _ h))
        · rw [if_neg h2] at h
          rcases List.mem_cons.mp h with rfl | hm
          · exact List.mem_cons_self _ _
          · exact List.mem_cons_of_mem _ (ih _ _ hm)

/-- Characters surviving cleaning and trimming all come from the input. -/
theorem mem_cleanResponse (s : List Char) (c : Char) (h : c ∈ cleanResponse s) :
    c ∈ s := by
  unfold cleanResponse jsTrim at h
  rw [List.mem_reverse] at h
  have h2 : c ∈ ((fenceClean s).dropWhile isJsWs).reverse :=
    (List.dropWhile_sublist _).subset h
  rw [List.mem_reverse] at h2
  have h3 : c ∈ fenceClean s := (List.dropWhile_sublist _).subset h2
  exact mem_fenceScan _ _ _ h3

set_option maxRecDepth 40000 in
/-- Claim C2 counterexample: a text none of whose brace-delimited spans
parses as JSON (the backticks after the brace ruin the only candidate span)
is still answered with 200, because the fence cleaning removes the
backticks before parsing; so "no parsing brace span" does not force a 500. -/
theorem c2_counterexample :
    hasParsingBraceSpan "\x7b``` \"transcript\":\"hi\"\x7d".data = false ∧
    extractResult "\x7b``` \"transcript\":\"hi\"\x7d".data =
      ⟨200, some (JVal.jobj
        [("transcript".data, JVal.jstr "hi".data),
         ("summary".data, JVal.jstr "No summary available".data),
         ("success".data, JVal.jbool true)])⟩ :=
  ⟨by decide, rfl⟩

/-- Claim C2 as amended: for every AI text containing no left-brace
character at all (in particular any text with no braces, like the spec's
"no json here"), the extraction stage returns a structured 500 error
envelope; no parser exception escapes. -/
theorem c2_no_brace_text_500 (s : List Char) (h : lbraceChar ∉ s) :
    ∃ msg, extractResult s = ⟨500, some (errBody msg)⟩ := by
  by_cases hemp : s.isEmpty
  · refine ⟨"Empty response from AI service".data, ?_⟩
    unfold extractResult
    rw [if_pos hemp]
  · have hcl : lbraceChar ∉ cleanResponse s := fun hc => h (mem_cleanResponse s _ hc)
    cases hpf : parseWithFallback (cleanResponse s) with
    | error m =>
      refine ⟨m, ?_⟩
      unfold extractResult
      rw [if_neg hemp, hpf]
    | ok v =>
      obtain ⟨m, hm⟩ := validate_nonobj v (parseWithFallback_not_obj _ hcl v hpf)
      refine ⟨m, ?_⟩
      unfold extractResult
      rw [if_neg hemp, hpf]
      exact hm

/-- Claim C2 witness: the spec's brace-free example text gets a structured
500 envelope. -/
theorem c2_witness :
    ∃ msg, extractResult "no json here".data = ⟨500, some (errBody msg)⟩ :=
  c2_no_brace_text_500 "no json here".data (by decide)

/-- Claim C6 witness: the clip.xyz example from the spec. -/
theorem c6_witness :
    getMimeType "clip.xyz".data = none ∧
    getMimeTypeDefault "clip.xyz".data = "audio/mpeg".data ∧
    processAudioHandler "POST".data (Except.ok (some ⟨"clip.xyz".data, []⟩)) none
        (Except.ok []) =
      ⟨⟨400, some (errBody ("Unsupported file type: ".data ++ extname "clip.xyz".data))⟩, 0⟩ := by
  have h := c6_unknown_extension_policies "clip.xyz".data (by decide)
  exact ⟨h.1, h.2.1, h.2.2 [] none (Except.ok [])⟩

/-- `rstripWs` is Mathlib's `rdropWhile` with the JS whitespace class. -/
theorem rstripWs_eq_rdropWhile (l : List Char) : rstripWs l = List.rdropWhile isJsWs l := rfl

/-- Dropping a predicate past an all-satisfying prefix. -/
theorem dropWhile_append_all {p : Char → Bool} (l r : List Char) (h : l.all p = true) :
    (l ++ r).dropWhile p = r.dropWhile p := by
  induction l with
  | nil => rfl
  | cons a l' ih =>
    rw [List.all_cons, Bool.and_eq_true] at h
    rw [List.cons_append, List.dropWhile_cons, if_pos h.1]
    exact ih h.2

/-- When the prefix has an element failing the predicate, `dropWhile` stops
inside it and the suffix survives whole. -/
theorem dropWhile_append_exists {p : Char → Bool} (l r : List Char)
    (h : ∃ x ∈ l, p x = false) : (l ++ r).dropWhile p = l.dropWhile p ++ r := by
  induction l with
  | nil =>
    obtain ⟨x, hx, _⟩ := h
    simp at hx
  | cons a l' ih =>
    by_cases ha : p a = true
    · have h' : ∃ x ∈ l', p x = false := by
        obtain ⟨x, hx, hpx⟩ := h
        rcases List.mem_cons.mp hx with rfl | hm
        · rw [ha] at hpx; cases hpx
        · exact ⟨x, hm, hpx⟩
      rw [List.cons_append, List.dropWhile_cons, if_pos ha, List.dropWhile_cons, if_pos ha]
      exact ih h'
    · rw [List.cons_append, List.dropWhile_cons, if_neg ha, List.dropWhile_cons, if_neg ha,
        List.cons_append]

/-- When some element fails the predicate, `dropWhile` produces a list whose
head fails the predicate and comes from the input. -/
theorem dropWhile_first_false {p : Char → Bool} (l : List Char)
    (h : ∃ x ∈ l, p x = false) :
    ∃ d l', l.dropWhile p = d :: l' ∧ p d = false ∧ d ∈ l := by
  induction l with
  | nil =>
    obtain ⟨x, hx, _⟩ := h
    simp at hx
  | cons a l' ih =>
    by_cases ha : p a = true
    · have h' : ∃ x ∈ l', p x = false := by
        obtain ⟨x, hx, hpx⟩ := h
        rcases List.mem_cons.mp hx with rfl | hm
        · rw [ha] at hpx; cases hpx
        · exact ⟨x, hm, hpx⟩
      obtain ⟨d, l'', heq, hpd, hdm⟩ := ih h'
      exact ⟨d, l'', by rw [List.dropWhile_cons, if_pos ha]; exact heq, hpd,
        List.mem_cons_of_mem _ hdm⟩
    · exact ⟨a, l', by rw [List.dropWhile_cons, if_neg ha], by simpa using ha,
        List.mem_cons_self _ _⟩

/-- A list whose elements all satisfy the predicate is dropped whole. -/
theorem dropWhile_all_nil {p : Char → Bool} (l : List Char) (h : l.all p = true) :
    l.dropWhile p = [] :=
  List.dropWhile_eq_nil_iff.mpr (fun x hx => List.all_eq_true.mp h x hx)

/-- An all-whitespace list strips to nothing. -/
theorem rstripWs_all (l : List Char) (h : l.all isJsWs = true) : rstripWs l = [] := by
  rw [rstripWs_eq_rdropWhile]
  exact List.rdropWhile_eq_nil_iff.mpr (fun x hx => List.all_eq_true.mp h x hx)

/-- Stripping trailing whitespace keeps the head when some element is not
whitespace. -/
theorem rstripWs_cons_of_not_all (c : Char) (u' : List Char)
    (h : ¬((c :: u').all isJsWs = true)) : rstripWs (c :: u') = c :: rstripWs u' := by
  unfold rstripWs
  rw [List.reverse_cons]
  by_cases hall : u'.all isJsWs = true
  · have hc : isJsWs c = false := by
      cases hic : isJsWs c with
      | true => exact absurd (by rw [List.all_cons, hic, hall]; rfl) h
      | false => rfl
    rw [dropWhile_append_all _ _ (by rwa [List.all_reverse]),
      List.dropWhile_cons, if_neg (by simp [hc]), dropWhile_all_nil _
        (by rwa [List.all_reverse])]
    rfl
  · have hex : ∃ x ∈ u'.reverse, isJsWs x = false := by
      rw [List.all_eq_true] at hall
      push_neg at hall
      obtain ⟨x, hx, hpx⟩ := hall
      exact ⟨x, List.mem_reverse.mpr hx, by simpa using hpx⟩
    rw [dropWhile_append_exists _ _ hex, List.reverse_append]
    rfl

/-- On backtick-free input the fence scan is the identity: both regex
alternatives need three backticks to fire. -/
theorem fenceScan_no_ticks : ∀ (fuel : Nat) (w : List Char), btChar ∉ w →
    w.length < fuel → fenceScan fuel w = w := by
  intro fuel
  induction fuel with
  | zero => intro w _ h; exact absurd h (by omega)
  | succ f ih =>
    intro w hw hlen
    match w with
    | [] => rfl
    | c :: cs =>
      rw [fenceScan]
      have hne1 : ¬((c :: cs).take 7 = fenceTag) := by
        intro he
        apply hw
        have hmem : btChar ∈ (c :: cs).take 7 := by
          rw [he]
          exact List.mem_cons_self _ _
        exact (List.take_sublist _ _).subset hmem
      rw [if_neg hne1]
      simp only []
      have hne2 : ¬(((c :: cs).dropWhile isJsWs).take 3 = fenceTicks) := by
        intro he
        apply hw
        have hmem : btChar ∈ ((c :: cs).dropWhile isJsWs).take 3 := by
          rw [he]
          exact List.mem_cons_self _ _
        exact (List.dropWhile_sublist _).subset ((List.take_sublist _ _).subset hmem)
      rw [if_neg hne2]
      have hlen' : cs.length < f := by
        rw [List.length_cons] at hlen
        omega
      rw [ih cs (fun hm => hw (List.mem_cons_of_mem _ hm)) hlen']

/-- A bare fence `` ``` `` between backtick-free context is removed together
with the whitespace run in front of it (the second regex alternative), no
matter where in the text it occurs — matching the global `g` replacement. -/
theorem fenceScan_mid_ticks : ∀ (u : List Char) (fuel : Nat) (v : List Char),
    btChar ∉ u → btChar ∉ v → v.take 4 ≠ ['j', 's', 'o', 'n'] →
    u.length + v.length + 4 ≤ fuel →
    fenceScan fuel (u ++ fenceTicks ++ v) = rstripWs u ++ v := by
  intro u
  induction u with
  | nil =>
    intro fuel v _ hv h4 hlen
    cases fuel with
    | zero => exact absurd hlen (by omega)
    | succ f =>
      show fenceScan (f + 1) (btChar :: btChar :: btChar :: v) = rstripWs [] ++ v
      rw [fenceScan]
      have hne1 : ¬((btChar :: btChar :: btChar :: v).take 7 = fenceTag) := by
        intro he
        simp only [List.take_succ_cons, fenceTag] at he
        injection he with e1 he
        injection he with e2 he
        injection he with e3 he
        exact h4 he
      rw [if_neg hne1]
      simp only []
      have hdw : (btChar :: btChar :: btChar :: v).dropWhile isJsWs =
          btChar :: btChar :: btChar :: v := by
        rw [List.dropWhile_cons, if_neg (by decide)]
      rw [hdw, if_pos (show (btChar :: btChar :: btChar :: v).take 3 = fenceTicks from rfl)]
      show fenceScan f v = rstripWs [] ++ v
      rw [fenceScan_no_ticks f v hv (by omega)]
      rfl
  | cons c u' ih =>
    intro fuel v hu hv h4 hlen
    cases fuel with
    | zero => exact absurd hlen (by omega)
    | succ f =>
      show fenceScan (f + 1) (c :: (u' ++ fenceTicks ++ v)) = rstripWs (c :: u') ++ v
      rw [fenceScan]
      have hcb : c ≠ btChar := fun he => hu (he ▸ List.mem_cons_self c u')
      have hne1 : ¬((c :: (u' ++ fenceTicks ++ v)).take 7 = fenceTag) := by
        intro he
        rw [List.take_succ_cons] at he
        simp only [fenceTag] at he
        injection he with e1 _
        exact hcb e1
      rw [if_neg hne1]
      simp only []
      have hassoc : c :: (u' ++ fenceTicks ++ v) = (c :: u') ++ (fenceTicks ++ v) := by
        simp [List.append_assoc]
      have hlen' : u'.length + v.length + 4 ≤ f := by
        rw [List.length_cons] at hlen
        omega
      by_cases hall : (c :: u').all isJsWs = true
      · have hdw : (c :: (u' ++ fenceTicks ++ v)).dropWhile isJsWs = fenceTicks ++ v := by
          rw [hassoc, dropWhile_append_all _ _ hall]
          show (btChar :: (btChar :: btChar :: v)).dropWhile isJsWs = _
          rw [List.dropWhile_cons, if_neg (by decide)]
          rfl
        rw [hdw, if_pos (show (fenceTicks ++ v).take 3 = fenceTicks from rfl)]
        show fenceScan f v = rstripWs (c :: u') ++ v
        rw [fenceScan_no_ticks f v hv (by omega), rstripWs_all _ hall]
        rfl
      · have hex : ∃ x ∈ c :: u', isJsWs x = false := by
          rw [List.all_eq_true] at hall
          push_neg at hall
          obtain ⟨x, hx, hpx⟩ := hall
          exact ⟨x, hx, by simpa using hpx⟩
        obtain ⟨d, l', hdw', hpd, hdm⟩ := dropWhile_first_false _ hex
        have hdb : d ≠ btChar := fun he => hu (he ▸ hdm)
        have hdw : (c :: (u' ++ fenceTicks ++ v)).dropWhile isJsWs =
            (d :: l') ++ (fenceTicks ++ v) := by
          rw [hassoc, dropWhile_append_exists _ _ hex, hdw']
        have hne2 : ¬(((c :: (u' ++ fenceTicks ++ v)).dropWhile isJsWs).take 3 =
            fenceTicks) := by
          rw [hdw]
          intro he
          rw [List.cons_append, List.take_succ_cons] at he
          simp only [fenceTicks] at he
          injection he with e1 _
          exact hdb e1
        rw [if_neg hne2]
        rw [ih f v (fun hm => hu (List.mem_cons_of_mem _ hm)) hv h4 hlen']
        rw [rstripWs_cons_of_not_all c u' hall]
        rfl

/-- A `` ```json `` fence with trailing whitespace, preceded by text with no
trailing whitespace and no backticks, is removed whole by the first regex
alternative — again anywhere in the text. -/
theorem fenceScan_json_fence : ∀ (u : List Char) (fuel : Nat) (w v : List Char),
    btChar ∉ u → rstripWs u = u → w.all isJsWs = true → btChar ∉ v →
    v.dropWhile isJsWs = v →
    u.length + w.length + v.length + 8 ≤ fuel →
    fenceScan fuel (u ++ fenceTag ++ w ++ v) = u ++ v := by
  intro u
  induction u with
  | nil =>
    intro fuel w v _ _ hw hv hvnw hlen
    cases fuel with
    | zero => exact absurd hlen (by omega)
    | succ f =>
      show fenceScan (f + 1)
        (btChar :: btChar :: btChar :: 'j' :: 's' :: 'o' :: 'n' :: (w ++ v)) = [] ++ v
      rw [fenceScan]
      rw [if_pos (show (btChar :: btChar :: btChar :: 'j' :: 's' :: 'o' :: 'n' ::
        (w ++ v)).take 7 = fenceTag from rfl)]
      show fenceScan f ((w ++ v).dropWhile isJsWs) = [] ++ v
      rw [dropWhile_append_all _ _ hw, hvnw, fenceScan_no_ticks f v hv (by omega)]
      rfl
  | cons c u' ih =>
    intro fuel w v hu hnt hw hv hvnw hlen
    cases fuel with
    | zero => exact absurd hlen (by omega)
    | succ f =>
      show fenceScan (f + 1) (c :: (u' ++ fenceTag ++ w ++ v)) = (c :: u') ++ v
      rw [fenceScan]
      have hcb : c ≠ btChar := fun he => hu (he ▸ List.mem_cons_self c u')
      have hne1 : ¬((c :: (u' ++ fenceTag ++ w ++ v)).take 7 = fenceTag) := by
        intro he
        rw [List.take_succ_cons] at he
        simp only [fenceTag] at he
        injection he with e1 _
        exact hcb e1
      rw [if_neg hne1]
      simp only []
      have hnotall : ¬((c :: u').all isJsWs = true) := by
        intro hall
        have hnil := rstripWs_all _ hall
        rw [hnt] at hnil
        simp at hnil
      have hnt' : rstripWs u' = u' := by
        have h2 := rstripWs_cons_of_not_all c u' hnotall
        rw [hnt] at h2
        injection h2 with _ h3
        exact h3.symm
      have hex : ∃ x ∈ c :: u', isJsWs x = false := by
        rw [List.all_eq_true] at hnotall
        push_neg at hnotall
        obtain ⟨x, hx, hpx⟩ := hnotall
        exact ⟨x, hx, by simpa using hpx⟩
      obtain ⟨d, l', hdw', hpd, hdm⟩ := dropWhile_first_false _ hex
      have hdb : d ≠ btChar := fun he => hu (he ▸ hdm)
      have hassoc : c :: (u' ++ fenceTag ++ w ++ v) =
          (c :: u') ++ (fenceTag ++ w ++ v) := by
        simp [List.append_assoc]
      have hdw : (c :: (u' ++ fenceTag ++ w ++ v)).dropWhile isJsWs =
          (d :: l') ++ (fenceTag ++ w ++ v) := by
        rw [hassoc, dropWhile_append_exists _ _ hex, hdw']
      have hne2 : ¬(((c :: (u' ++ fenceTag ++ w ++ v)).dropWhile isJsWs).take 3 =
          fenceTicks) := by
        rw [hdw]
        intro he
        rw [List.cons_append, List.take_succ_cons] at he
        simp only [fenceTicks] at he
        injection he with e1 _
        exact hdb e1
      rw [if_neg hne2]
      have hlen' : u'.length + w.length + v.length + 8 ≤ f := by
        rw [List.length_cons] at hlen
        omega
      rw [ih f w v (fun hm => hu (List.mem_cons_of_mem _ hm)) hnt' hw hv hvnw hlen']
      rfl

/-- `fenceClean` removes a mid-text bare fence and its leading whitespace. -/
theorem fenceClean_mid_ticks (u v : List Char) (hu : btChar ∉ u) (hv : btChar ∉ v)
    (h4 : v.take 4 ≠ ['j', 's', 'o', 'n']) :
    fenceClean (u ++ fenceTicks ++ v) = rstripWs u ++ v := by
  unfold fenceClean
  apply fenceScan_mid_ticks u _ v hu hv h4
  simp [List.length_append, fenceTicks]
  omega

/-- `fenceClean` removes a mid-text ```json fence and its trailing
whitespace when no whitespace precedes it. -/
theorem fenceClean_json_fence (u w v : List Char) (hu : btChar ∉ u)
    (hnt : rstripWs u = u) (hw : w.all isJsWs = true) (hv : btChar ∉ v)
    (hvnw : v.dropWhile isJsWs = v) :
    fenceClean (u ++ fenceTag ++ w ++ v) = u ++ v := by
  unfold fenceClean
  apply fenceScan_json_fence u _ w v hu hnt hw hv hvnw
  simp [List.length_append, fenceTag]
  omega

/-- Claim C9 counterexample: in "a ```json b" the whitespace before the
fence makes the second regex alternative fire first, so only the space and
the backticks are deleted and the literal "json" survives: the occurrence
of "```json" (with trailing whitespace) is not removed as the claim states. -/
theorem c9_counterexample :
    fenceClean "a ```json b".data = "ajson b".data ∧
    fenceClean "a ```json b".data ≠ "a b".data :=
  ⟨rfl, by decide⟩

/-- Claim C9 as amended: the cleaning is a global replacement, not a strip
of surrounding markers: every occurrence of three backticks is removed with
the whitespace run before it, wherever it occurs; an occurrence of
"```json" with trailing whitespace is removed whole when no whitespace
precedes it (when whitespace precedes it, only the whitespace and backticks
go and "json" survives); and this reaches inside JSON string values, so a
transcript value containing triple backticks is altered before parsing. -/
theorem c9_global_fence_removal :
    (∀ u v : List Char, btChar ∉ u → btChar ∉ v → v.take 4 ≠ ['j', 's', 'o', 'n'] →
      fenceClean (u ++ fenceTicks ++ v) = rstripWs u ++ v) ∧
    (∀ u w v : List Char, btChar ∉ u → rstripWs u = u → w.all isJsWs = true →
      btChar ∉ v → v.dropWhile isJsWs = v →
      fenceClean (u ++ fenceTag ++ w ++ v) = u ++ v) ∧
    extractResult "\x7b\"transcript\":\"a``` b\",\"summary\":\"s\"\x7d".data =
      ⟨200, some (JVal.jobj
        [("transcript".data, JVal.jstr "a b".data),
         ("summary".data, JVal.jstr "s".data),
         ("success".data, JVal.jbool true)])⟩ :=
  ⟨fenceClean_mid_ticks, fenceClean_json_fence, rfl⟩

/-- Claim C9 witness: concrete instantiations of both removal laws. -/
theorem c9_witness :
    fenceClean ("inside ".data ++ fenceTicks ++ " value".data) =
      rstripWs "inside ".data ++ " value".data ∧
    fenceClean ("x".data ++ fenceTag ++ " ".data ++ "rest".data) =
      "x".data ++ "rest".data :=
  ⟨c9_global_fence_removal.1 "inside ".data " value".data (by decide) (by decide)
    (by decide),
   c9_global_fence_removal.2.1 "x".data " ".data "rest".data (by decide) (by decide)
    (by decide) (by decide) (by decide)⟩
